import Mathlib

/-!
Verification development for the `session` package of the `lstoll/web`
repository: a browser-facing HTTP session-management layer.

The definitions below are a shallow embedding of the Go source:

* Go `time.Time` instants and `time.Duration` values are modelled as `Int`
  (seconds where the wire format matters; the zero value of `time.Time` is
  modelled as `0`, so `t.IsZero()` becomes `t = 0`).
* Go `map[string]any` is modelled as an association list `GoMap` with
  lookup / assignment / deletion semantics matching Go maps (assignment
  replaces an existing key).  Go maps are unordered, so map equality is
  always stated pointwise through `mapGet`.
* Go `any` values stored in a session are modelled by the inductive
  `GoVal`; Go `nil` is the absence of a value (`Option.none` from lookups).
* Go `[]byte` is modelled as `List Nat` (each entry a byte value), and Go
  strings used as cookie values are modelled as `List Char`.
* Fallible Go functions returning `(T, error)` are modelled with
  `Except`/`Option`.
* The external cryptographic and encoding primitives the package calls
  (XChaCha20-Poly1305 from `golang.org/x/crypto`, `compress/zlib`,
  `encoding/base64` — all library code outside this repository) are kept
  abstract as parameters bundled in `CookieCrypto`; concrete instantiations
  used by closed theorems capture exactly the properties of those
  libraries that the statements rely on, documented at each definition.
-/

/-- A dynamically typed Go value (`any`) as stored in session data. -/
inductive GoVal where
  | vStr (s : String)
  | vBool (b : Bool)
  | vInt (n : Int)
  | vTime (t : Int)
  deriving DecidableEq, Repr

/-- Go `map[string]any`, as an association list. -/
abbrev GoMap := List (String × GoVal)

/-- Go map read `m[k]`: `none` models the `nil`/zero result for a missing
key. -/
def mapGet : GoMap → String → Option GoVal
  | [], _ => none
  | (k', v) :: rest, k => if k' = k then some v else mapGet rest k

/-- Go map deletion `delete(m, k)`. -/
def mapDel (m : GoMap) (k : String) : GoMap :=
  m.filter (fun kv => kv.1 ≠ k)

/-- Go map assignment `m[k] = v` (replaces any existing entry for `k`).
The representation reorders entries, which is unobservable for Go maps;
all properties are stated through `mapGet`. -/
def mapSet (m : GoMap) (k : String) (v : GoVal) : GoMap :=
  (k, v) :: mapDel m k

/-- `sessionMetadata` from `manager.go`: creation and last-update instants
tracked alongside the session data. -/
structure SessionMetadata where
  CreatedAt : Int
  UpdatedAt : Int
  deriving DecidableEq, Repr

/-- The reserved key `MetadataCreatedAt = "__createdAt"`. -/
def MetadataCreatedAt : String := "__createdAt"

/-- The reserved key `MetadataUpdatedAt = "__updatedAt"`. -/
def MetadataUpdatedAt : String := "__updatedAt"

/-- `setMetadata` from the codec file: stores the metadata into the session
map under the two reserved keys. -/
def setMetadata (data : GoMap) (md : SessionMetadata) : GoMap :=
  mapSet (mapSet data MetadataCreatedAt (.vTime md.CreatedAt))
    MetadataUpdatedAt (.vTime md.UpdatedAt)

/-- `extractMetadata` from the codec file: reads the metadata back out of
the session map, defaulting each field to the zero time when the key is
missing or has an unexpected dynamic type. -/
def extractMetadata (data : GoMap) : SessionMetadata :=
  { CreatedAt :=
      match mapGet data MetadataCreatedAt with
      | some (.vTime t) => t
      | _ => 0
    UpdatedAt :=
      match mapGet data MetadataUpdatedAt with
      | some (.vTime t) => t
      | _ => 0 }

/-- `sessCtx` from `manager.go`: the per-request mutable session state.
`datab` is the original loaded byte payload (Go `nil` slice modelled as
`[]`), and `del`/`save`/`reset` are the mutation-tracking flags (the Go
field `delete` is renamed `del` here). -/
structure SessCtx where
  metadata : SessionMetadata
  data : GoMap
  datab : List Nat
  del : Bool
  save : Bool
  reset : Bool
  deriving DecidableEq, Repr

/-- The flash-message key `"__flash"` used by `manager.go`. -/
def flashKey : String := "__flash"

/-- The flash-level key `"__flash_is_error"` used by `manager.go`. -/
def flashIsErrorKey : String := "__flash_is_error"

namespace Manager

/-- `Manager.set` (manager.go): stores one key and marks the session to be
saved, re-arming after a delete. -/
def set (s : SessCtx) (k : String) (v : GoVal) : SessCtx :=
  { s with del := false, save := true, data := mapSet s.data k v }

/-- `Manager.setAll` (manager.go): replaces the whole data map, keeping the
existing metadata entries in the map, and marks the session to be saved. -/
def setAll (s : SessCtx) (d : GoMap) : SessCtx :=
  { s with del := false, save := true, data := setMetadata d s.metadata }

/-- `Manager.delete` (manager.go): drops the cached raw bytes, empties the
in-memory data, and marks the session for deletion. -/
def del (s : SessCtx) : SessCtx :=
  { s with datab := [], data := [], del := true, save := false, reset := false }

/-- `Manager.reset` (manager.go): drops the cached raw bytes and marks the
session for an identity reset; the visible data is untouched. -/
def reset (s : SessCtx) : SessCtx :=
  { s with datab := [], save := false, del := false, reset := true }

/-- `Manager.get` (manager.go): returns `sessCtx.data[key]` (the missing
case is Go `nil`, here `none`). -/
def get (s : SessCtx) (k : String) : Option GoVal :=
  mapGet s.data k

/-- `Manager.getAll` (manager.go): returns the session data map itself
(`return sessCtx.data`, no copy is taken).  This purely functional reading
ignores aliasing; the reference semantics of the returned Go map are
modelled separately by `getAllRef` below. -/
def getAll (s : SessCtx) : GoMap :=
  s.data

/-- `Manager.HasFlash` (manager.go): reports whether the `"__flash"` key is
present in the session data. -/
def HasFlash (s : SessCtx) : Bool :=
  (mapGet s.data flashKey).isSome

/-- `Manager.FlashMessage` (manager.go): returns the current flash message
and clears it.  When the `"__flash"` key is present, both flash entries are
deleted from the data and the save flag is armed before the dynamic type of
the stored value is examined; a non-string value yields `""`. -/
def FlashMessage (s : SessCtx) : String × SessCtx :=
  match mapGet s.data flashKey with
  | none => ("", s)
  | some flash =>
    let data := mapDel (mapDel s.data flashKey) flashIsErrorKey
    let s' : SessCtx := { s with data := data, save := true }
    match flash with
    | .vStr str => (str, s')
    | _ => ("", s')

end Manager

/-- One mutation call made through the session handle during a request. -/
inductive SessOp where
  | set (k : String) (v : GoVal)
  | setAll (d : GoMap)
  | del
  | reset
  deriving Repr

/-- Apply one handle call to the per-request state. -/
def applyOp (s : SessCtx) : SessOp → SessCtx
  | .set k v => Manager.set s k v
  | .setAll d => Manager.setAll s d
  | .del => Manager.del s
  | .reset => Manager.reset s

/-- Run a sequence of handle calls. -/
def runOps (s : SessCtx) (ops : List SessOp) : SessCtx :=
  ops.foldl applyOp s

/-- The all-false flag state a request starts from (`Wrap` builds the fresh
`sessCtx` with all flags unset). -/
def initialFlags (md : SessionMetadata) (data : GoMap) (datab : List Nat) : SessCtx :=
  { metadata := md, data := data, datab := datab,
    del := false, save := false, reset := false }

/-- The save/delete/touch decision taken by `Manager.saveHook`
(manager.go): delete when `delete` or `reset` is set, then save when `save`
or `reset` is set, else touch when an idle timeout is configured and raw
loaded bytes are present, else do nothing. -/
inductive HookAction where
  | deleteSession
  | saveSession
  | touchSession
  deriving DecidableEq, Repr

/-- The list of persistence actions `Manager.saveHook` performs for a given
final per-request state, in order. -/
def saveHookActions (idleTimeout : Int) (s : SessCtx) : List HookAction :=
  (if s.del || s.reset then [.deleteSession] else []) ++
  (if s.save || s.reset then [.saveSession]
   else if idleTimeout ≠ 0 ∧ s.datab ≠ [] then [.touchSession]
   else [])

/-- State of the `hookRW` response-writer wrapper (store_kv.go): the
`sync.Once` done flag together with a count of how many times the save hook
has actually executed. -/
structure HookState where
  onceDone : Bool
  fired : Nat
  deriving DecidableEq, Repr

/-- `sync.Once.Do`: runs the hook only if it has not run before. -/
def hookOnceDo (s : HookState) : HookState :=
  if s.onceDone then s else { onceDone := true, fired := s.fired + 1 }

/-- A handler's interaction with the wrapped response writer. -/
inductive RWEvent where
  | write
  | writeHeader
  deriving Repr

/-- `hookRW.Write` and `hookRW.WriteHeader` (store_kv.go) both gate the
hook behind `hookOnce.Do` before delegating to the real writer. -/
def hookRWStep (s : HookState) (e : RWEvent) : HookState :=
  match e with
  | .write => hookOnceDo s
  | .writeHeader => hookOnceDo s

/-- The hook state a request starts from: hook not yet fired. -/
def initialHookState : HookState := { onceDone := false, fired := 0 }

/-- `Manager.Wrap` (manager.go): the handler performs its response writes
through `hookRW`, and after the handler returns, the wrap runs
`hookOnce.Do` once more so the hook fires even if nothing was written. -/
def wrapServe (events : List RWEvent) : HookState :=
  hookOnceDo (events.foldl hookRWStep initialHookState)

/-- Result of `Manager.loadSession` (manager.go): an error, no stored
session (`nil, nil`), or raw payload bytes. -/
inductive LoadResult where
  | err
  | nodata
  | ok (b : List Nat)

/-- The observable outcome of `Manager.Wrap`'s entry for one request.
`panicked` is the behavior the spec prescribes for double wrapping; the
code never produces it.  `passthrough` is calling the next handler with the
request untouched; `proceed` is running the request with the given fresh
or loaded session state. -/
inductive WrapOutcome where
  | panicked
  | passthrough
  | proceed (s : SessCtx)
  deriving DecidableEq, Repr

/-- The fresh session `Manager.Wrap` constructs before attempting a load:
metadata with `CreatedAt = now`, an empty data map into which the metadata
keys are immediately written, no raw bytes, all flags false. -/
def freshSessCtx (now : Int) : SessCtx :=
  let md : SessionMetadata := { CreatedAt := now, UpdatedAt := 0 }
  initialFlags md (setMetadata [] md) []

/-- `Manager.Wrap` (manager.go), entry phase, as a function of: whether the
request context already holds a session context for this manager instance,
the current time, the configured idle timeout, the result of
`loadSession`, the codec's `Decode` (gob decoding, external library state
kept abstract), and the optional `Onload` callback.  On any load error or
decode error the fresh session is kept and the request proceeds; the
already-wrapped case is a no-op passthrough to the next handler. -/
def wrapRequest (alreadyWrapped : Bool) (now idleTimeout : Int) (load : LoadResult)
    (dec : List Nat → Option GoMap) (onload : Option (GoMap → GoMap)) : WrapOutcome :=
  if alreadyWrapped then .passthrough
  else
    let sctx := freshSessCtx now
    match load with
    | .err => .proceed sctx
    | .nodata => .proceed sctx
    | .ok b =>
      match dec b with
      | none => .proceed sctx
      | some decoded =>
        let md := extractMetadata decoded
        let datab := if idleTimeout ≠ 0 then b else []
        let data :=
          match onload with
          | none => decoded
          | some f => setMetadata (f decoded) md
        .proceed { metadata := md, data := data, datab := datab,
                   del := false, save := false, reset := false }

/-- A decoder that always fails, used to evaluate the wrap at concrete
inputs. -/
def decNone : List Nat → Option GoMap := fun _ => none

/-! ### Reference semantics of the session data map

Go maps are reference types: `Manager.getAll`'s `return sessCtx.data`
hands the caller the same map object the session holds, so writes through
the returned map are writes to the session's map.  To state this we model
a small heap of maps addressed by `MapRef`. -/

/-- A reference to a Go map object. -/
abbrev MapRef := Nat

/-- A heap of Go map objects. -/
structure MapHeap where
  cells : List GoMap
  deriving Repr

/-- Dereference a map pointer. -/
def MapHeap.readRef (h : MapHeap) (r : MapRef) : GoMap :=
  h.cells.getD r []

/-- Overwrite the map object a pointer refers to. -/
def MapHeap.writeRef (h : MapHeap) (r : MapRef) (m : GoMap) : MapHeap :=
  ⟨h.cells.set r m⟩

/-- Session state holding its data map by reference (the Go `sessCtx.data`
field holds a map reference). -/
structure SessCtxRef where
  dataRef : MapRef
  deriving Repr

/-- `Manager.getAll` under reference semantics: `return sessCtx.data`
returns the session's map reference itself, not a copy. -/
def Manager.getAllRef (s : SessCtxRef) : MapRef :=
  s.dataRef

/-- `Manager.get` under reference semantics: reads `sessCtx.data[key]`
through the session's map reference. -/
def Manager.getRef (h : MapHeap) (s : SessCtxRef) (k : String) : Option GoVal :=
  mapGet (h.readRef s.dataRef) k

/-- A caller mutating a map it holds a reference to (`m[k] = v`). -/
def mapAssignRef (h : MapHeap) (r : MapRef) (k : String) (v : GoVal) : MapHeap :=
  h.writeRef r (mapSet (h.readRef r) k v)

/-! ### Cookie-mode wire format -/

/-- Go `[]byte`. -/
abbrev Bytes := List Nat

/-- `binary.LittleEndian.PutUint64` restricted to `k` output bytes:
little-endian base-256 digits of `n`. -/
def putLE : Nat → Nat → Bytes
  | 0, _ => []
  | k + 1, n => n % 256 :: putLE k (n / 256)

/-- `binary.LittleEndian.Uint64`: read back a little-endian integer. -/
def leVal : Bytes → Nat
  | [] => 0
  | b :: rest => b + 256 * leVal rest

/-- Go conversion `uint64(e)` for an `int64` value `e`: reduction modulo
`2^64`. -/
def uint64OfInt (e : Int) : Nat :=
  (e % (2 ^ 64 : Int)).toNat

/-- Go conversion `int64(u)` for a `uint64` value `u`: two's-complement
reinterpretation. -/
def int64OfUint64 (u : Nat) : Int :=
  if u < 2 ^ 63 then (u : Int) else (u : Int) - 2 ^ 64

/-- The external primitives the cookie codec calls, kept abstract:
`encrypt`/`decrypt` are the `AEAD` interface (associated data passed as the
Go string it is converted from), `compress`/`decompress` the pooled zlib
pair, `b64encode`/`b64decode` the `base64.RawURLEncoding` codec. -/
structure CookieCrypto where
  encrypt : Bytes → String → Bytes
  decrypt : Bytes → String → Option Bytes
  compress : Bytes → Bytes
  decompress : Bytes → Option Bytes
  b64encode : Bytes → List Char
  b64decode : List Char → Option Bytes

/-- `managerCookieMagic = "EU1"` (uncompressed). -/
def cookieMagicChars : List Char := ['E', 'U', '1']

/-- `managerCompressedCookieMagic = "EC1"` (compressed). -/
def compressedCookieMagicChars : List Char := ['E', 'C', '1']

/-- `managerCompressThreshold = 512`. -/
def compressThreshold : Nat := 512

/-- `managerMaxCookieSize = 4096`. -/
def maxCookieSize : Nat := 4096

/-- `strings.SplitN(s, ".", 2)`: split at the first dot.  `none` models the
single-element result Go returns when no dot is present (the caller treats
that as the cookie-format error). -/
def splitFirstDot : List Char → Option (List Char × List Char)
  | [] => none
  | c :: rest =>
    if c = '.' then some ([], rest)
    else
      match splitFirstDot rest with
      | none => none
      | some (a, b) => some (c :: a, b)

/-- The error cases of `Manager.loadFromCookie` / `CookieBackend.Load`, one
constructor per error return in the source, in source order. -/
inductive CookieLoadError where
  | notTwoParts
  | decodeB64
  | badMagic
  | decompressFailed
  | decryptFailed
  | tooShort
  | expired
  deriving DecidableEq, Repr

deriving instance DecidableEq for Except

namespace Manager

/-- `Manager.saveToCookie` (codec.go): prepend the 8-byte little-endian
expiry to the payload, compress when enabled and over the threshold
(choosing the magic accordingly), encrypt with associated data equal to the
configured cookie name, assemble `magic ++ "." ++ base64(ciphertext)`, and
fail when the result exceeds the maximum cookie size.  The Manager fields
consulted by the method (`aead`, `compressionDisabled`,
`cookieSettings.Name`) are passed as parameters; the final `http.SetCookie`
is outside the model, so the computed cookie value is returned. -/
def saveToCookie (env : CookieCrypto) (compressionDisabled : Bool)
    (cookieName : String) (expiresAt : Int) (data : Bytes) :
    Except String (List Char) :=
  let dataWithExpiry := putLE 8 (uint64OfInt expiresAt) ++ data
  let compressed :=
    if compressionDisabled = false ∧ dataWithExpiry.length > compressThreshold then
      (env.compress dataWithExpiry, compressedCookieMagicChars)
    else
      (dataWithExpiry, cookieMagicChars)
  let encryptedData := env.encrypt compressed.1 cookieName
  let cookieValue := compressed.2 ++ ('.' :: env.b64encode encryptedData)
  if cookieValue.length > maxCookieSize then
    .error "cookie size is greater than max"
  else
    .ok cookieValue

/-- `Manager.loadFromCookie` (codec.go): split on the first dot, base64
decode, validate the magic, decompress the decoded bytes when the magic is
the compressed one (note: before decryption, exactly as the source does),
decrypt with associated data equal to the configured cookie name, then
check the embedded expiry against the current time and strip the 8-byte
header. -/
def loadFromCookie (env : CookieCrypto) (cookieName : String) (now : Int)
    (cookieValue : List Char) : Except CookieLoadError Bytes :=
  match splitFirstDot cookieValue with
  | none => .error .notTwoParts
  | some (magic, encodedData) =>
    match env.b64decode encodedData with
    | none => .error .decodeB64
    | some decodedData =>
      if magic ≠ compressedCookieMagicChars ∧ magic ≠ cookieMagicChars then
        .error .badMagic
      else
        let decompressedE : Except CookieLoadError Bytes :=
          if magic = compressedCookieMagicChars then
            match env.decompress decodedData with
            | none => .error .decompressFailed
            | some b => .ok b
          else
            .ok decodedData
        match decompressedE with
        | .error e => .error e
        | .ok dataToDecrypt =>
          match env.decrypt dataToDecrypt cookieName with
          | none => .error .decryptFailed
          | some decryptedData =>
            if decryptedData.length < 8 then .error .tooShort
            else if int64OfUint64 (leVal (decryptedData.take 8)) < now then
              .error .expired
            else
              .ok (decryptedData.drop 8)

end Manager

namespace CookieBackend

/-- `CookieBackend.Store` (store.go): identical framing to
`Manager.saveToCookie`, except that the associated data passed to the AEAD
is the session `id` argument supplied by the caller (`UnifiedStore`), not a
cookie name. -/
def Store (env : CookieCrypto) (compressionDisabled : Bool) (id : String)
    (expiresAt : Int) (data : Bytes) : Except String (List Char) :=
  let dataWithExpiry := putLE 8 (uint64OfInt expiresAt) ++ data
  let compressed :=
    if compressionDisabled = false ∧ dataWithExpiry.length > compressThreshold then
      (env.compress dataWithExpiry, compressedCookieMagicChars)
    else
      (dataWithExpiry, cookieMagicChars)
  let encryptedData := env.encrypt compressed.1 id
  let cookieValue := compressed.2 ++ ('.' :: env.b64encode encryptedData)
  if cookieValue.length > maxCookieSize then
    .error "cookie size is greater than max"
  else
    .ok cookieValue

/-- `CookieBackend.Load` (store.go): identical to `Manager.loadFromCookie`
except that the associated data passed to the AEAD is the empty string
(`[]byte("")` in the source, despite the adjacent comment saying it uses
the cookie name). -/
def Load (env : CookieCrypto) (now : Int) (cookieValue : List Char) :
    Except CookieLoadError Bytes :=
  match splitFirstDot cookieValue with
  | none => .error .notTwoParts
  | some (magic, encodedData) =>
    match env.b64decode encodedData with
    | none => .error .decodeB64
    | some decodedData =>
      if magic ≠ compressedCookieMagicChars ∧ magic ≠ cookieMagicChars then
        .error .badMagic
      else
        let decompressedE : Except CookieLoadError Bytes :=
          if magic = compressedCookieMagicChars then
            match env.decompress decodedData with
            | none => .error .decompressFailed
            | some b => .ok b
          else
            .ok decodedData
        match decompressedE with
        | .error e => .error e
        | .ok dataToDecrypt =>
          match env.decrypt dataToDecrypt "" with
          | none => .error .decryptFailed
          | some decryptedData =>
            if decryptedData.length < 8 then .error .tooShort
            else if int64OfUint64 (leVal (decryptedData.take 8)) < now then
              .error .expired
            else
              .ok (decryptedData.drop 8)

end CookieBackend

/-! ### Concrete instantiations of the external primitives

Used by closed theorems to evaluate the cookie codec at specific inputs.
Each captures the property of the real library that the statement relies
on, and nothing more. -/

/-- Go `[]byte(s)` for an (ASCII) string. -/
def strBytes (s : String) : Bytes :=
  s.toList.map Char.toNat

/-- Idealized AEAD encryption: the ciphertext determines the plaintext and
is bound to the associated data.  Models the functional behavior of
XChaCha20-Poly1305: decryption succeeds exactly for the associated data the
ciphertext was produced under (any other AD fails the Poly1305 tag
check). -/
def idealEncrypt (pt : Bytes) (ad : String) : Bytes :=
  174 :: (strBytes ad).length :: (strBytes ad ++ pt)

/-- Idealized AEAD decryption matching `idealEncrypt`: succeeds only when
the ciphertext carries the same associated data. -/
def idealDecrypt (ct : Bytes) (ad : String) : Option Bytes :=
  let hdr := 174 :: (strBytes ad).length :: strBytes ad
  if ct.take hdr.length = hdr then some (ct.drop hdr.length) else none

/-- The fixed two-byte zlib stream header (`0x78 0x9c`) the Go
`zlib.Writer` emits with default settings. -/
def zlibHeader : Bytes := [120, 156]

/-- zlib-like compression: output framed by the mandatory zlib header.
(The body transformation is irrelevant to the statements and is kept as
the identity.) -/
def zlibLikeCompress (b : Bytes) : Bytes :=
  zlibHeader ++ b

/-- zlib-like decompression: `zlib.NewReader` rejects any input that does
not start with a valid zlib header, which is the property the compressed
cookie-load statements rely on (the real reader additionally validates the
FLG check bits and the Adler-32 trailer). -/
def zlibLikeDecompress (b : Bytes) : Option Bytes :=
  if b.take 2 = zlibHeader then some (b.drop 2) else none

/-- An injective byte-to-char code with a total inverse, standing in for
`base64.RawURLEncoding` (only the round-trip property is relied on). -/
def charEncode (b : Bytes) : List Char :=
  b.map (fun n => Char.ofNat (48 + n))

/-- Inverse of `charEncode`. -/
def charDecode (cs : List Char) : Option Bytes :=
  some (cs.map (fun c => c.toNat - 48))

/-- The concrete primitive bundle used by closed theorems. -/
def idealEnv : CookieCrypto :=
  { encrypt := idealEncrypt
    decrypt := idealDecrypt
    compress := zlibLikeCompress
    decompress := zlibLikeDecompress
    b64encode := charEncode
    b64decode := charDecode }

/-- `Manager.calculateExpiry` (manager.go): collect the candidate
invalidation instants — creation plus max lifetime when configured, last
activity (update time if set, else creation) plus idle timeout when
configured — and return the earliest (zero time when neither is
configured). -/
def calculateExpiry (maxLifetime idleTimeout : Int) (md : SessionMetadata) : Int :=
  let invalidTimes : List Int :=
    (if maxLifetime ≠ 0 then [md.CreatedAt + maxLifetime] else []) ++
    (if idleTimeout ≠ 0 then
      [(if md.UpdatedAt ≠ 0 then md.UpdatedAt else md.CreatedAt) + idleTimeout]
     else [])
  match invalidTimes with
  | [] => 0
  | t :: rest => rest.foldl (fun earliest u => if u < earliest then u else earliest) t

/-! ## Supporting lemmas -/

theorem mapGet_mapSet_self (m : GoMap) (k : String) (v : GoVal) :
    mapGet (mapSet m k v) k = some v := by
  simp [mapSet, mapGet]

theorem mapGet_filter_ne (m : GoMap) (p : String × GoVal → Bool) (k : String)
    (h : ∀ v, p (k, v) = true) :
    mapGet (m.filter p) k = mapGet m k := by
  induction m with
  | nil => simp [mapGet]
  | cons kv rest ih =>
    by_cases hk : kv.1 = k
    · have : p kv = true := by
        rcases kv with ⟨k', v⟩
        simp only at hk
        subst hk
        exact h v
      simp [List.filter, this, mapGet, hk]
    · by_cases hp : p kv = true
      · simp [List.filter, hp, mapGet, hk, ih]
      · simp at hp
        simp [List.filter, hp, mapGet, hk, ih]

theorem mapGet_mapDel_ne (m : GoMap) (k k' : String) (h : k ≠ k') :
    mapGet (mapDel m k') k = mapGet m k := by
  unfold mapDel
  apply mapGet_filter_ne
  intro v
  simp [h]

theorem mapGet_mapDel_self (m : GoMap) (k : String) :
    mapGet (mapDel m k) k = none := by
  induction m with
  | nil => simp [mapDel, mapGet]
  | cons kv rest ih =>
    by_cases hk : kv.1 = k
    · simp [mapDel, List.filter, hk] at ih ⊢
      exact ih
    · simp [mapDel, List.filter, hk, mapGet] at ih ⊢
      exact ih

theorem mapGet_mapSet_ne (m : GoMap) (k k' : String) (v : GoVal) (h : k' ≠ k) :
    mapGet (mapSet m k' v) k = mapGet m k := by
  simp only [mapSet, mapGet, if_neg h]
  exact mapGet_mapDel_ne m k k' (fun hh => h hh.symm)

theorem hookState_foldl_inv (events : List RWEvent) (s : HookState)
    (hs : (s.onceDone = true ∧ s.fired = 1) ∨ (s.onceDone = false ∧ s.fired = 0)) :
    ((events.foldl hookRWStep s).onceDone = true ∧
      (events.foldl hookRWStep s).fired = 1) ∨
    ((events.foldl hookRWStep s).onceDone = false ∧
      (events.foldl hookRWStep s).fired = 0) := by
  induction events generalizing s with
  | nil => exact hs
  | cons e rest ih =>
    apply ih
    rcases hs with ⟨h1, h2⟩ | ⟨h1, h2⟩ <;>
      cases e <;> simp [hookRWStep, hookOnceDo, h1, h2]

theorem applyOp_not_save_and_del (s : SessCtx) (op : SessOp) :
    ¬((applyOp s op).save = true ∧ (applyOp s op).del = true) := by
  cases op <;> simp [applyOp, Manager.set, Manager.setAll, Manager.del, Manager.reset]

theorem runOps_not_save_and_del (s : SessCtx)
    (hs : ¬(s.save = true ∧ s.del = true)) (ops : List SessOp) :
    ¬((runOps s ops).save = true ∧ (runOps s ops).del = true) := by
  induction ops generalizing s with
  | nil => exact hs
  | cons op rest ih =>
    exact ih (applyOp s op) (applyOp_not_save_and_del s op)

/-! ## Claim theorems -/

/-- C4: starting from the all-false flag state, each handle call leaves the
flags and data exactly as the spec's state machine describes, and in every
reachable state `save` and `delete` are never simultaneously true. -/
theorem c4_flag_state_machine :
    (∀ s k v, (Manager.set s k v).save = true ∧ (Manager.set s k v).del = false) ∧
    (∀ s d, (Manager.setAll s d).save = true ∧ (Manager.setAll s d).del = false) ∧
    (∀ s, (Manager.del s).del = true ∧ (Manager.del s).save = false ∧
      (Manager.del s).reset = false ∧ (Manager.del s).data = [] ∧
      (∀ k, Manager.get (Manager.del s) k = none)) ∧
    (∀ s, (Manager.reset s).reset = true ∧ (Manager.reset s).save = false ∧
      (Manager.reset s).del = false ∧ (Manager.reset s).datab = [] ∧
      (Manager.reset s).data = s.data) ∧
    (∀ md data datab ops,
      ¬((runOps (initialFlags md data datab) ops).save = true ∧
        (runOps (initialFlags md data datab) ops).del = true)) := by
  refine ⟨?_, ?_, ?_, ?_, ?_⟩
  · intro s k v; exact ⟨rfl, rfl⟩
  · intro s d; exact ⟨rfl, rfl⟩
  · intro s
    refine ⟨rfl, rfl, rfl, rfl, ?_⟩
    intro k; rfl
  · intro s; exact ⟨rfl, rfl, rfl, rfl, rfl⟩
  · intro md data datab ops
    exact runOps_not_save_and_del _ (by simp [initialFlags]) ops

/-- C3: the deferred save/delete/touch hook executes exactly once per
request, regardless of how many `Write` or `WriteHeader` calls the handler
makes — including none at all, in which case the flush at the end of
`Wrap` fires it. -/
theorem c3_hook_fires_exactly_once (events : List RWEvent) :
    (wrapServe events).fired = 1 := by
  unfold wrapServe
  have h := hookState_foldl_inv events initialHookState (Or.inr ⟨rfl, rfl⟩)
  rcases h with ⟨h1, h2⟩ | ⟨h1, h2⟩ <;> simp [hookOnceDo, h1, h2]

/-- C5: any failure to load (`loadSession` error: bad magic, decrypt
failure, expired payload, KV read fault) or to decode the loaded bytes
leaves the request proceeding with the fresh session whose `CreatedAt` is
the current time and which holds no application data; the wrap never turns
a load error into a request failure. -/
theorem c5_load_errors_degrade_to_fresh_session (now idleTimeout : Int)
    (dec : List Nat → Option GoMap) (onload : Option (GoMap → GoMap))
    (b : List Nat) (hdec : dec b = none) :
    wrapRequest false now idleTimeout .err dec onload = .proceed (freshSessCtx now) ∧
    wrapRequest false now idleTimeout (.ok b) dec onload = .proceed (freshSessCtx now) ∧
    (freshSessCtx now).metadata.CreatedAt = now ∧
    (∀ k, k ≠ MetadataCreatedAt → k ≠ MetadataUpdatedAt →
      Manager.get (freshSessCtx now) k = none) := by
  refine ⟨rfl, ?_, rfl, ?_⟩
  · simp [wrapRequest, hdec]
  · intro k h1 h2
    show mapGet (setMetadata [] _) k = none
    unfold setMetadata
    rw [mapGet_mapSet_ne _ _ _ _ (Ne.symm h2), mapGet_mapSet_ne _ _ _ _ (Ne.symm h1)]
    rfl

theorem c5_witness :
    wrapRequest false 7 0 .err decNone none = .proceed (freshSessCtx 7) ∧
    wrapRequest false 7 0 (.ok []) decNone none = .proceed (freshSessCtx 7) :=
  ⟨(c5_load_errors_degrade_to_fresh_session 7 0 decNone none [] rfl).1,
   (c5_load_errors_degrade_to_fresh_session 7 0 decNone none [] rfl).2.1⟩

/-- C6 counterexample: at a request whose context already holds a session
context for the same manager instance, `Wrap` passes the request through to
the next handler untouched; it does not panic, contrary to the claim. -/
theorem c6_counterexample :
    wrapRequest true 0 0 .nodata decNone none = .passthrough ∧
    wrapRequest true 0 0 .nodata decNone none ≠ .panicked := by
  exact ⟨rfl, by decide⟩

/-- C6 amended: when the request context already holds an initialized
session context for the same manager instance, `Wrap` is a no-op
passthrough to the next handler (it neither reinitializes the session nor
panics). -/
theorem c6_amended_double_wrap_noop (now idleTimeout : Int) (load : LoadResult)
    (dec : List Nat → Option GoMap) (onload : Option (GoMap → GoMap)) :
    wrapRequest true now idleTimeout load dec onload = .passthrough := rfl

/-- C7 counterexample: mutating the map returned by `GetAll` does change
the value subsequently observed through `Get` on the same session, contrary
to the claim. -/
theorem c7_counterexample :
    Manager.getRef (mapAssignRef ⟨[[]]⟩ (Manager.getAllRef ⟨0⟩) "k" (.vStr "v")) ⟨0⟩ "k" =
      some (.vStr "v") ∧
    Manager.getRef (mapAssignRef ⟨[[]]⟩ (Manager.getAllRef ⟨0⟩) "k" (.vStr "v")) ⟨0⟩ "k" ≠
      Manager.getRef ⟨[[]]⟩ ⟨0⟩ "k" := by
  exact ⟨by decide, by decide⟩

/-- C7 amended: `GetAll` returns the live session data map (the same map
reference the session holds), so a write through the returned map is
visible to every subsequent `Get` on the same session. -/
theorem c7_amended_getAll_live_reference (h : MapHeap) (s : SessCtxRef)
    (k : String) (v : GoVal) (hr : s.dataRef < h.cells.length) :
    Manager.getRef (mapAssignRef h (Manager.getAllRef s) k v) s k = some v := by
  unfold Manager.getRef mapAssignRef Manager.getAllRef MapHeap.writeRef MapHeap.readRef
  rw [List.getD_eq_getElem?_getD, List.getElem?_set_self, Option.getD_some]
  · exact mapGet_mapSet_self _ _ _
  · exact hr

theorem c7_witness :
    Manager.getRef (mapAssignRef ⟨[[]]⟩ (Manager.getAllRef ⟨0⟩) "a" (.vInt 1)) ⟨0⟩ "a" =
      some (.vInt 1) :=
  c7_amended_getAll_live_reference ⟨[[]]⟩ ⟨0⟩ "a" (.vInt 1) (by decide)

/-- C8 counterexample: on a fresh session the metadata is stored in the
data map under the reserved keys, and `Get`/`GetAll` expose it: `Get` on
`"__createdAt"` returns the creation time, not nil, and `GetAll`'s result
contains the metadata entry. -/
theorem c8_counterexample :
    Manager.get (freshSessCtx 1000) MetadataCreatedAt = some (.vTime 1000) ∧
    mapGet (Manager.getAll (freshSessCtx 1000)) MetadataCreatedAt ≠ none := by
  exact ⟨by decide, by decide⟩

/-- C8 amended: session metadata is kept in the session data map itself
under the reserved keys `"__createdAt"` and `"__updatedAt"`, and it is
visible to application code as ordinary keys: `Get` on a metadata key
returns the metadata value and `GetAll`'s result contains the metadata
entries. -/
theorem c8_amended_metadata_visible (now : Int) :
    Manager.get (freshSessCtx now) MetadataCreatedAt = some (.vTime now) ∧
    Manager.get (freshSessCtx now) MetadataUpdatedAt = some (.vTime 0) ∧
    mapGet (Manager.getAll (freshSessCtx now)) MetadataCreatedAt = some (.vTime now) := by
  have hne : MetadataUpdatedAt ≠ MetadataCreatedAt := by decide
  refine ⟨?_, ?_, ?_⟩
  · show mapGet (setMetadata [] _) MetadataCreatedAt = _
    unfold setMetadata
    rw [mapGet_mapSet_ne _ _ _ _ hne, mapGet_mapSet_self]
  · exact mapGet_mapSet_self _ _ _
  · show mapGet (setMetadata [] _) MetadataCreatedAt = _
    unfold setMetadata
    rw [mapGet_mapSet_ne _ _ _ _ hne, mapGet_mapSet_self]

/-- C9: with both a max lifetime and an idle timeout configured the
computed expiry is the minimum of `createdAt + maxLifetime` and
`lastActivity + idleTimeout`, where `lastActivity` is `updatedAt` when set
and `createdAt` otherwise; with only one configured, that one alone is
used. -/
theorem c9_expiry_is_min (maxLifetime idleTimeout : Int) (md : SessionMetadata) :
    (maxLifetime ≠ 0 → idleTimeout ≠ 0 →
      calculateExpiry maxLifetime idleTimeout md =
        min (md.CreatedAt + maxLifetime)
          ((if md.UpdatedAt ≠ 0 then md.UpdatedAt else md.CreatedAt) + idleTimeout)) ∧
    (maxLifetime ≠ 0 → idleTimeout = 0 →
      calculateExpiry maxLifetime idleTimeout md = md.CreatedAt + maxLifetime) ∧
    (maxLifetime = 0 → idleTimeout ≠ 0 →
      calculateExpiry maxLifetime idleTimeout md =
        (if md.UpdatedAt ≠ 0 then md.UpdatedAt else md.CreatedAt) + idleTimeout) := by
  refine ⟨?_, ?_, ?_⟩
  · intro h1 h2
    simp [calculateExpiry, h1, h2]
    split_ifs <;> omega
  · intro h1 h2
    simp [calculateExpiry, h1, h2]
  · intro h1 h2
    simp [calculateExpiry, h1, h2]

theorem c9_expiry_witness :
    calculateExpiry 2 3 ⟨10, 0⟩ =
      min ((10 : Int) + 2) ((if (0 : Int) ≠ 0 then (0 : Int) else 10) + 3) ∧
    calculateExpiry 2 0 ⟨10, 0⟩ = (10 : Int) + 2 ∧
    calculateExpiry 0 3 ⟨10, 4⟩ =
      (if (4 : Int) ≠ 0 then (4 : Int) else 10) + 3 :=
  ⟨(c9_expiry_is_min 2 3 ⟨10, 0⟩).1 (by decide) (by decide),
   (c9_expiry_is_min 2 0 ⟨10, 0⟩).2.1 (by decide) rfl,
   (c9_expiry_is_min 0 3 ⟨10, 4⟩).2.2 rfl (by decide)⟩

/-- C10: whenever the session data contains a flash entry of any dynamic
type, `FlashMessage` removes both flash entries, arms the save flag (so
the hook's decision includes a save), and leaves `HasFlash` false; it
returns the stored string, or the empty string when the stored value is
not a string — still clearing the flash in that case. -/
theorem c10_flash_cleared (idleTimeout : Int) (s : SessCtx) (v : GoVal)
    (hv : mapGet s.data flashKey = some v) :
    mapGet (Manager.FlashMessage s).2.data flashKey = none ∧
    mapGet (Manager.FlashMessage s).2.data flashIsErrorKey = none ∧
    (Manager.FlashMessage s).2.save = true ∧
    Manager.HasFlash (Manager.FlashMessage s).2 = false ∧
    HookAction.saveSession ∈ saveHookActions idleTimeout (Manager.FlashMessage s).2 ∧
    (∀ str, v = .vStr str → (Manager.FlashMessage s).1 = str) ∧
    ((∀ str, v ≠ .vStr str) → (Manager.FlashMessage s).1 = "") := by
  have hfk : flashKey ≠ flashIsErrorKey := by decide
  have key1 : mapGet (mapDel (mapDel s.data flashKey) flashIsErrorKey) flashKey = none := by
    rw [mapGet_mapDel_ne _ _ _ hfk, mapGet_mapDel_self]
  have key2 : mapGet (mapDel (mapDel s.data flashKey) flashIsErrorKey) flashIsErrorKey
      = none := mapGet_mapDel_self _ _
  have heq : Manager.FlashMessage s =
      ((match v with | .vStr str => str | _ => ""),
       { s with data := mapDel (mapDel s.data flashKey) flashIsErrorKey,
                save := true }) := by
    unfold Manager.FlashMessage
    simp only [hv]
    cases v <;> rfl
  rw [heq]
  refine ⟨key1, key2, rfl, ?_, ?_, ?_, ?_⟩
  · simp [Manager.HasFlash, key1]
  · simp [saveHookActions]
  · intro str h
    subst h
    rfl
  · intro habs
    cases v with
    | vStr str => exact absurd rfl (habs str)
    | vBool b => rfl
    | vInt n => rfl
    | vTime t => rfl

theorem c10_witness :
    mapGet (Manager.FlashMessage
      ⟨⟨0, 0⟩, [("__flash", .vBool true)], [], false, false, false⟩).2.data flashKey
      = none ∧
    (Manager.FlashMessage
      ⟨⟨0, 0⟩, [("__flash", .vBool true)], [], false, false, false⟩).2.save = true ∧
    (Manager.FlashMessage
      ⟨⟨0, 0⟩, [("__flash", .vBool true)], [], false, false, false⟩).1 = "" :=
  ⟨(c10_flash_cleared 0 _ (.vBool true) (by decide)).1,
   (c10_flash_cleared 0 _ (.vBool true) (by decide)).2.2.1,
   (c10_flash_cleared 0 _ (.vBool true) (by decide)).2.2.2.2.2.2
     (fun str h => by cases h)⟩

/-- C1 (code-bug evidence): `CookieBackend.Store` encrypts with associated
data equal to the session id passed by `UnifiedStore` (here `"abc"`), not
the cookie name, while `CookieBackend.Load` decrypts with the empty
associated data; consequently the value `Store` produces fails
authentication in the matching `Load` and is not decryptable at all. -/
theorem c1_cookie_backend_ad_mismatch :
    (CookieBackend.Store idealEnv false "abc" 50 [104, 105]).toOption ≠ none ∧
    CookieBackend.Load idealEnv 10
        ((CookieBackend.Store idealEnv false "abc" 50 [104, 105]).toOption.getD [])
      = .error .decryptFailed := by
  exact ⟨by decide, by decide⟩

set_option maxRecDepth 100000 in
/-- C2 (code-bug evidence): with compression enabled (the default), a
payload over the compression threshold stores successfully but can never be
loaded back: `loadFromCookie` feeds the AEAD ciphertext to the zlib
decompressor (decompression runs before decryption, although compression
was applied before encryption on the save path), and the decompressor
rejects it.  For payloads below the threshold the round trip does return
exactly the payload for a future expiry, and the expired error for a past
one. -/
theorem c2_compressed_cookie_never_loads :
    (Manager.saveToCookie idealEnv false "__Host-session" 3600
        (List.replicate 505 97)).toOption ≠ none ∧
    Manager.loadFromCookie idealEnv "__Host-session" 10
        ((Manager.saveToCookie idealEnv false "__Host-session" 3600
          (List.replicate 505 97)).toOption.getD [])
      = .error .decompressFailed ∧
    Manager.loadFromCookie idealEnv "__Host-session" 10
        ((Manager.saveToCookie idealEnv false "__Host-session" 50
          [104, 105]).toOption.getD [])
      = .ok [104, 105] ∧
    Manager.loadFromCookie idealEnv "__Host-session" 10
        ((Manager.saveToCookie idealEnv false "__Host-session" 5
          [104, 105]).toOption.getD [])
      = .error .expired := by
  exact ⟨by decide, by decide, by decide, by decide⟩
